import Mathlib

/-!
Shallow embedding of the `msi_convert` repository
(`patternFromSlices.py` and `msiread.py`).

Gains and angles are modelled as exact rationals (`ℚ`); the dB→linear
conversion `10 ** (x/10)` and the cube root of the Cross-Weighted
combiner are modelled over `ℝ`.  Fallible code (Python `raise`) is
modelled with `Except String`; the non-fatal `warnings.warn` call is
modelled as a `Bool` flag in the result.
-/

namespace MsiConvert

/-- Model of `np.mod x m` for reals: `x - m * ⌊x / m⌋`, lands in `[0, m)` for `m > 0`. -/
def qmod (x m : ℚ) : ℚ := x - m * ⌊x / m⌋

instance decEqExcept {ε α : Type} [DecidableEq ε] [DecidableEq α] :
    DecidableEq (Except ε α) := fun a b =>
  match a, b with
  | Except.error e, Except.error f =>
      if h : e = f then isTrue (by rw [h]) else isFalse (by simp [h])
  | Except.error _, Except.ok _ => isFalse (by simp)
  | Except.ok _, Except.error _ => isFalse (by simp)
  | Except.ok x, Except.ok y =>
      if h : x = y then isTrue (by rw [h]) else isFalse (by simp [h])

/-- Model of `np.max` over a nonempty list (callers guard emptiness as numpy raises there). -/
def listMax (l : List ℚ) : ℚ := l.foldl max (l.headD 0)

/-- Model of `np.min` over a nonempty list (callers guard emptiness as numpy raises there). -/
def listMin (l : List ℚ) : ℚ := l.foldl min (l.headD 0)

/-- Auxiliary scan for `argminList`: carries current index, best index, best value.
`np.argmin` keeps the first index attaining the minimum, hence the strict `<`. -/
def argminAux : List ℚ → ℕ → ℕ → ℚ → ℕ
  | [], _, bi, _ => bi
  | x :: t, i, bi, bv => if x < bv then argminAux t (i + 1) i x else argminAux t (i + 1) bi bv

/-- Model of `np.argmin`: index of the first minimal element (0 on the empty list). -/
def argminList : List ℚ → ℕ
  | [] => 0
  | x :: t => argminAux t 1 0 x

/-- Model of `np.round` to an integer: round half to even (banker's rounding). -/
def roundHalfEven (q : ℚ) : ℤ :=
  let f : ℤ := ⌊q⌋
  let r : ℚ := q - f
  if r < 1/2 then f
  else if 1/2 < r then f + 1
  else if f % 2 = 0 then f else f + 1

/-- The gain values whose rounded angle equals `u`
(`vals[indices == i]` in `check_repeated_points`). -/
def groupGains (rounded : List ℤ) (vals : List ℚ) (u : ℤ) : List ℚ :=
  ((rounded.zip vals).filter (fun p => p.1 == u)).map Prod.snd

/-- Model of `check_repeated_points(vals, angles, az_or_el)`: errors iff some
rounded angle carries more than one distinct gain value. -/
def check_repeated_points (vals angles : List ℚ) (azOrEl : String) : Except String Unit :=
  let rounded := angles.map roundHalfEven
  let uniq := rounded.dedup
  if uniq.any (fun u => 1 < (groupGains rounded vals u).dedup.length) then
    Except.error ("Repeated angles with unequal values in " ++ azOrEl)
  else Except.ok ()

/-- Value of `np.min(np.abs(np.mod(angles - bs, 360)))`: minimum mod-360 offset
from the boresight angle (the `abs` is vacuous since `np.mod` is
nonnegative, so the offset is one-sided). -/
def minFromBoresight (angles : List ℚ) (bs : ℚ) : ℚ :=
  listMin (angles.map (fun t => |qmod (t - bs) 360|))

/-- Value of `gains[np.argmin(np.abs(angles - bs))]`: gain at the sample whose
angle is nearest (in plain absolute difference) to the boresight. -/
def boresightGain (gains angles : List ℚ) (bs : ℚ) : ℚ :=
  gains.getD (argminList (angles.map (fun t => |t - bs|))) 0

/-- Model of `check_reconstruction_requirements`.  Returns `Except.error` on a raised
`ValueError`, `Except.ok warned` otherwise, where `warned` records the
`warnings.warn` call of the slice-intersection soft check.  The two
leading emptiness guards model `np.min` raising on an empty array. -/
def check_reconstruction_requirements (vert theta horiz phi : List ℚ)
    (tolNearest tolGainMax : ℚ) (tolIntersect : ℚ × ℚ) : Except String Bool :=
  if theta.isEmpty then Except.error "zero-size array reduction" else
  if phi.isEmpty then Except.error "zero-size array reduction" else
  if tolNearest < minFromBoresight theta 90 then
    Except.error "No angles near boresight in vertical slice" else
  if tolNearest < minFromBoresight phi 0 then
    Except.error "No angles near boresight in horizontal slice" else
  if tolGainMax < listMax vert - boresightGain vert theta 90 then
    Except.error "Vertical slice gain at boresight exceeds tolerance." else
  if tolGainMax < listMax horiz - boresightGain horiz phi 0 then
    Except.error "Horizontal slice gain at boresight exceeds tolerance." else
  if tolIntersect.2 < |boresightGain vert theta 90 - boresightGain horiz phi 0| then
    Except.error "Gain difference at slice intersection exceeds tolerance." else
  if tolIntersect.1 < |boresightGain vert theta 90 - boresightGain horiz phi 0| then
    Except.ok true
  else Except.ok false

/-- The `(θ, gain)` pairs kept by the mask `np.mod(theta, 360) <= 180`
(`idx_theta` in `preprocess_data`). -/
def keptPairs (vertNorm theta : List ℚ) : List (ℚ × ℚ) :=
  (theta.zip vertNorm).filter (fun p => decide (qmod p.1 360 ≤ 180))

/-- Model of `preprocess_data(vert_slice_norm, theta, horiz_slice_norm, phi, method)`.

`np.meshgrid(a, b)` (default 'xy' indexing) returns grids of shape
`(len b, len a)`: the first grid repeats `a` as every row, the second
grid makes row `i` constant at `b i`.  Here `a` is the θ-subset of the
normalized vertical slice and `b` is the full normalized horizontal
slice (`idx_phi` selects every φ index; at both call sites
`len horiz = len phi`).  `theta_out`/`phi_out` are taken from the raw
input angle arrays, not their wrapped copies.  An unknown `method`
leaves `idx_theta` unbound in the Python (a `NameError`), modelled as
`Except.error`. -/
def preprocess_data (vertNorm theta horizNorm phi : List ℚ) (method : String) :
    Except String (List (List ℚ) × List ℚ × List (List ℚ) × List ℚ) :=
  if method = "Summing" ∨ method = "CrossWeighted" then
    let kept := keptPairs vertNorm theta
    let theta_out := kept.map Prod.fst
    let vertSub := kept.map Prod.snd
    let vert_mesh := horizNorm.map (fun _ => vertSub)
    let horiz_mesh := horizNorm.map (fun hv => vertSub.map (fun _ => hv))
    Except.ok (vert_mesh, theta_out, horiz_mesh, phi)
  else Except.error "NameError: idx_theta"

/-- Linear power ratio `10 ** (x / 10)` of a dB value. -/
noncomputable def dbToLin (x : ℚ) : ℝ := (10 : ℝ) ^ ((x : ℝ) / 10)

/-- Cross weight `w1 = vert_mesh_lin * (1 - horiz_mesh_lin)` at one cell. -/
noncomputable def w1 (V H : ℚ) : ℝ := dbToLin V * (1 - dbToLin H)

/-- Cross weight `w2 = horiz_mesh_lin * (1 - vert_mesh_lin)` at one cell. -/
noncomputable def w2 (V H : ℚ) : ℝ := dbToLin H * (1 - dbToLin V)

/-- Model of `np.cbrt`: real cube root, odd extension of `x ^ (1/3)`. -/
noncomputable def cbrt (x : ℝ) : ℝ :=
  if 0 ≤ x then x ^ ((1 : ℝ) / 3) else -((-x) ^ ((1 : ℝ) / 3))

/-- One cell of the Cross-Weighted combiner (lines 63-69 of
`patternFromSlices.py`): the formula
`(H * w1 + V * w2) / cbrt (w1 ^ k + w2 ^ k)` with the mask
`pat3D[w1 == 0 and w2 == 0] = 0` applied afterwards, which is the
same as guarding the cell with that condition. -/
noncomputable def crossWeightedCell (V H : ℚ) (k : ℕ) : ℝ :=
  if w1 V H = 0 ∧ w2 V H = 0 then 0
  else ((H : ℝ) * w1 V H + (V : ℝ) * w2 V H) / cbrt (w1 V H ^ k + w2 V H ^ k)

/-- The scalar `max_directivity = max(np.max(vert_slice), np.max(horiz_slice))`. -/
def max_directivity (vert horiz : List ℚ) : ℚ := max (listMax vert) (listMax horiz)

/-- Normalization (lines 54-55): subtract the scalar from every gain. -/
def normalize_slice (l : List ℚ) (m : ℚ) : List ℚ := l.map (fun g => g - m)

/-- Denormalization (line 74): add the scalar back to one gain value. -/
def denormalize (x m : ℚ) : ℚ := x + m

/-- The `horiz_slice` argument: absent, a scalar (omnidirectional), or a series. -/
inductive HorizSpec where
  | absent : HorizSpec
  | scalar (g : ℚ) : HorizSpec
  | series (l : List ℚ) : HorizSpec

/-- Value of `np.arange(0, 361, 5)`: the default φ grid 0°, 5°, …, 360°. -/
def defaultPhi : List ℚ := (List.range 73).map (fun i => 5 * (i : ℚ))

/-- Model of `pattern_from_slices(vert_slice, theta, horiz_slice, phi, method,
cross_weighted_normalization, ..., tolerances)`.

Result on success: the denormalized grid (rows indexed by φ, columns by
the θ-subset; `ℝ`-valued since the Cross-Weighted branch is real),
`theta_out`, `phi_out`, and the warning flag from the intersection
check.  The emptiness guard in the `absent` branch models
`np.max(vert_slice)` raising on an empty array. -/
noncomputable def pattern_from_slices (vert theta : List ℚ)
    (horizSpec : HorizSpec) (phiOpt : Option (List ℚ)) (method : String)
    (k : ℕ) (tolNearest tolGainMax : ℚ) (tolIntersect : ℚ × ℚ) :
    Except String (List (List ℝ) × List ℚ × List ℚ × Bool) :=
  if vert.length ≠ theta.length then
    Except.error "Dimensions of vert_slice and theta do not match."
  else
    let phi := phiOpt.getD defaultPhi
    let horizE : Except String (List ℚ) :=
      match horizSpec with
      | HorizSpec.absent =>
          if vert.isEmpty then Except.error "zero-size array reduction"
          else Except.ok (List.replicate phi.length (listMax vert))
      | HorizSpec.scalar g => Except.ok (List.replicate phi.length g)
      | HorizSpec.series l =>
          if l.length ≠ phi.length then
            Except.error "Dimensions of horiz_slice and phi do not match."
          else Except.ok l
    match horizE with
    | Except.error e => Except.error e
    | Except.ok horiz =>
      match check_repeated_points vert theta "el" with
      | Except.error e => Except.error e
      | Except.ok _ =>
        match check_repeated_points horiz phi "az" with
        | Except.error e => Except.error e
        | Except.ok _ =>
          match check_reconstruction_requirements vert theta horiz phi
              tolNearest tolGainMax tolIntersect with
          | Except.error e => Except.error e
          | Except.ok warned =>
            let m := max_directivity vert horiz
            let vertNorm := normalize_slice vert m
            let horizNorm := normalize_slice horiz m
            if method = "Summing" then
              match preprocess_data vertNorm theta horizNorm phi method with
              | Except.error e => Except.error e
              | Except.ok (vm, theta_out, hm, phi_out) =>
                let pat3D := (vm.zip hm).map (fun rc =>
                  (rc.1.zip rc.2).map (fun vh => vh.1 + vh.2))
                Except.ok
                  (pat3D.map (fun row => row.map (fun q => ((denormalize q m : ℚ) : ℝ))),
                    theta_out, phi_out, warned)
            else if method = "CrossWeighted" then
              match preprocess_data vertNorm theta horizNorm phi method with
              | Except.error e => Except.error e
              | Except.ok (vm, theta_out, hm, phi_out) =>
                let pat3D := (vm.zip hm).map (fun rc =>
                  (rc.1.zip rc.2).map (fun vh => crossWeightedCell vh.1 vh.2 k))
                Except.ok (pat3D.map (fun row => row.map (fun x => x + (m : ℝ))),
                  theta_out, phi_out, warned)
            else Except.error ("Unknown method: " ++ method)


/-! ## Embedding of `msiread.py`

Text is handled at the character-list level (`List Char`), with
`String` only at the outer interface; `wordsOf` models Python's
`str.split()`, so `reduce_spaces` composed with `split` is just
`wordsOf` itself. -/

/-- Accumulator pass for `wordsOf`: split at whitespace, dropping empties. -/
def wordsAux : List Char → List Char → List (List Char)
  | [], acc => if acc.isEmpty then [] else [acc.reverse]
  | c :: t, acc =>
    if c.isWhitespace then
      if acc.isEmpty then wordsAux t [] else acc.reverse :: wordsAux t []
    else wordsAux t (c :: acc)

/-- Python `str.split()` (no argument): whitespace-separated words. -/
def wordsOf (cs : List Char) : List (List Char) := wordsAux cs []

/-- Python `str.strip()`: drop leading and trailing whitespace. -/
def trimL (cs : List Char) : List Char :=
  ((cs.dropWhile Char.isWhitespace).reverse.dropWhile Char.isWhitespace).reverse

/-- Python `str.lower()`. -/
def lowerL (cs : List Char) : List Char := cs.map Char.toLower

/-- Space-join of a word list. -/
def joinWords (ws : List (List Char)) : List Char := List.intercalate [' '] ws

/-- Leading sign of a character stream (used by the `float` model). -/
def splitSign : List Char → ℤ × List Char
  | '+' :: t => (1, t)
  | '-' :: t => (-1, t)
  | t => (1, t)

/-- Value of a digit string. -/
def digitsVal (cs : List Char) : ℕ :=
  cs.foldl (fun a c => 10 * a + (c.toNat - 48)) 0

/-- Python `float(s)` on decimal literals: optional sign, digits with an
optional fractional part, optional exponent; `none` models `ValueError`. -/
def parseFloat (s : List Char) : Option ℚ :=
  let (sgn, t) := splitSign (trimL s)
  let ip := t.takeWhile Char.isDigit
  let r1 := t.dropWhile Char.isDigit
  let fp := if r1.head? = some '.' then r1.tail.takeWhile Char.isDigit else []
  let r2 := if r1.head? = some '.' then r1.tail.dropWhile Char.isDigit else r1
  if ip.isEmpty ∧ fp.isEmpty then none
  else
    let mant : ℚ := (digitsVal ip : ℚ) + (digitsVal fp : ℚ) / (10 : ℚ) ^ fp.length
    match r2 with
    | [] => some (sgn * mant)
    | e :: r3 =>
      if e = 'e' ∨ e = 'E' then
        let (esgn, r4) := splitSign r3
        let ed := r4.takeWhile Char.isDigit
        let r5 := r4.dropWhile Char.isDigit
        if ed.isEmpty ∨ ¬ r5.isEmpty then none
        else some (sgn * mant * (10 : ℚ) ^ (esgn * (digitsVal ed : ℤ)))
      else none

/-- One output record of `msiread` (`Horizontal` / `Vertical` dicts);
fields never assigned by the parser stay `none`. -/
structure MsiSection where
  physicalQuantity : Option String := none
  magnitude : Option (List ℚ) := none
  units : Option String := none
  azimuth : Option (List ℚ) := none
  elevation : Option String := none
  frequency : Option ℚ := none
  slice : Option String := none

/-- A value of the `Optional` dict: a raw string, a parsed number
(`none` when Python stores `None`), or the gain value/unit pair. -/
inductive OptVal where
  | str (s : List Char) : OptVal
  | numOpt (v : Option ℚ) : OptVal
  | gainv (v : Option ℚ) (unit : List Char) : OptVal

/-- Python dict assignment on an association list. -/
def dictSet (d : List (List Char × OptVal)) (k : List Char) (v : OptVal) :
    List (List Char × OptVal) :=
  if d.any (fun p => p.1 == k) then d.map (fun p => if p.1 == k then (k, v) else p)
  else d ++ [(k, v)]

/-- Python dict lookup on an association list. -/
def dictFind (d : List (List Char × OptVal)) (k : List Char) : Option OptVal :=
  (d.find? (fun p => p.1 == k)).map Prod.snd

/-- The mutable state of `msiread`'s parsing loop.  `transData` models the
Python local variable `TransData`: `none` while it is still unbound. -/
structure MsiState where
  horizontal : MsiSection
  vertical : MsiSection
  optionalDict : List (List Char × OptVal)
  gainValue : Option ℚ
  transData : Option (List ℚ)

/-- Initial state: empty sections, empty dict, `TransData` unbound. -/
def initMsiState : MsiState :=
  { horizontal := {}, vertical := {}, optionalDict := [],
    gainValue := none, transData := none }

/-- First word of a line, lowercased (after strip and space reduction):
`line[:idx].lower()` in the source. -/
def firstWordOf (line : String) : List Char :=
  lowerL ((wordsOf (trimL line.data)).headD [])

/-- Rest of a line after its first word: `line[idx:].strip()` on the
space-reduced line, i.e. the remaining words rejoined. -/
def restOfLine (line : String) : List Char :=
  joinWords (wordsOf (trimL line.data)).tail

/-- Model of `get_value_with_unit`: numeric value plus unit (default `dBd`); an
empty argument indexes past the end in Python (`IndexError`). -/
def get_value_with_unit (txt : List Char) : Except String (Option ℚ × List Char) :=
  match wordsOf txt with
  | [] => Except.error "IndexError: list index out of range"
  | [p] => Except.ok (parseFloat p, "dBd".data)
  | p :: u :: _ => Except.ok (parseFloat p, u)

/-- Model of `get_xy_coords`: reads `(x, y)` pairs until a line fails to parse.
Returns the pairs, the format-error message (ignored by the caller, as
in the source), and the number of lines consumed.  A stopping line —
wrong field count, or two fields not both numeric — is itself consumed,
as in the source, where `line_num` was already advanced past it. -/
def get_xy_coords : List String → List (ℚ × ℚ) × Option String × ℕ
  | [] => ([], none, 0)
  | line :: rest =>
    let ws := wordsOf (trimL line.data)
    if ws.isEmpty then
      let (v, m, k) := get_xy_coords rest
      (v, m, k + 1)
    else
      match ws with
      | [a, b] =>
        (match parseFloat a, parseFloat b with
         | some x, some y =>
           let (v, m, k) := get_xy_coords rest
           ((x, y) :: v, m, k + 1)
         | _, _ => ([], none, 1))
      | _ => ([], some "Format error - expected 2 values", 1)

/-- The line-dispatch loop of `msiread` (the `while` over `lines`;
`parse_next_line` is always `True` in the source).  The `horizontal` /
`vertical` branch reads the data block; when no gain was seen before
and `TransData` was never bound, the Python `Horizontal['Magnitude'] =
TransData` raises `UnboundLocalError`, modelled as `Except.error`. -/
def msiLoop : List String → MsiState → Except String MsiState
  | [], st => Except.ok st
  | line :: rest, st =>
    if (trimL line.data).isEmpty then msiLoop rest st
    else
      let fw := firstWordOf line
      let rl := restOfLine line
      if fw = "name".data ∨ fw = "make".data then
        msiLoop rest { st with optionalDict := dictSet st.optionalDict fw (OptVal.str rl) }
      else if fw = "h_width".data ∨ fw = "v_width".data ∨ fw = "front_to_back".data ∨
          fw = "frequency".data then
        let v := parseFloat rl
        let st1 := { st with optionalDict := dictSet st.optionalDict fw (OptVal.numOpt v) }
        if fw = "frequency".data then
          match v with
          | none => Except.error "TypeError: unsupported operand"
          | some q =>
            msiLoop rest { st1 with
              horizontal := { st1.horizontal with frequency := some (q * 1000000) },
              vertical := { st1.vertical with frequency := some (q * 1000000) } }
        else msiLoop rest st1
      else if fw = "tilt".data then
        let v := match parseFloat rl with
          | some q => OptVal.numOpt (some q)
          | none => OptVal.str (trimL rl)
        msiLoop rest { st with optionalDict := dictSet st.optionalDict fw v }
      else if fw = "gain".data then
        match get_value_with_unit rl with
        | Except.error e => Except.error e
        | Except.ok (v, u) =>
          msiLoop rest { st with
            optionalDict := dictSet st.optionalDict fw (OptVal.gainv v u),
            gainValue := v }
      else if fw = "polarization".data then
        msiLoop rest { st with optionalDict := dictSet st.optionalDict fw (OptVal.str (trimL rl)) }
      else if fw = "comment".data then
        msiLoop rest { st with optionalDict := dictSet st.optionalDict fw (OptVal.str rl) }
      else if fw = "horizontal".data ∨ fw = "vertical".data then
        let (data, _msg, consumed) := get_xy_coords rest
        let transOpt := match st.gainValue with
          | some g => some (data.map (fun p => -p.2 + g))
          | none => st.transData
        match transOpt with
        | none => Except.error "UnboundLocalError: local variable referenced before assignment"
        | some td =>
          if fw = "horizontal".data then
            msiLoop (rest.drop consumed) { st with
              horizontal := { st.horizontal with
                azimuth := some (data.map Prod.fst), magnitude := some td },
              transData := transOpt }
          else
            msiLoop (rest.drop consumed) { st with
              vertical := { st.vertical with
                azimuth := some (data.map Prod.fst), magnitude := some td },
              transData := transOpt }
      else
        msiLoop rest { st with optionalDict := dictSet st.optionalDict fw (OptVal.str rl) }
  termination_by l _ => l.length
  decreasing_by all_goals (simp [List.length_drop]; try omega)

/-- Model of `msiread(fname)` on the list of lines of the file: run the loop,
then propagate a `dBi` gain unit into both sections' `Units`. -/
def msiread (lines : List String) :
    Except String (MsiSection × MsiSection × List (List Char × OptVal)) :=
  match msiLoop lines initMsiState with
  | Except.error e => Except.error e
  | Except.ok st =>
    match dictFind st.optionalDict "gain".data with
    | some (OptVal.gainv _ u) =>
      if u = "dBi".data then
        Except.ok ({ st.horizontal with units := some "dBi" },
                   { st.vertical with units := some "dBi" }, st.optionalDict)
      else Except.ok (st.horizontal, st.vertical, st.optionalDict)
    | _ => Except.ok (st.horizontal, st.vertical, st.optionalDict)

/-! ## Helper lemmas -/

theorem foldl_max_map_sub (t : List ℚ) (a m : ℚ) :
    (t.map (fun g => g - m)).foldl max (a - m) = t.foldl max a - m := by
  induction t generalizing a with
  | nil => rfl
  | cons b t ih =>
    simp only [List.map_cons, List.foldl_cons]
    rw [max_sub_sub_right]
    exact ih (max a b)

theorem listMax_normalize (l : List ℚ) (m : ℚ) (h : l ≠ []) :
    listMax (normalize_slice l m) = listMax l - m := by
  cases l with
  | nil => exact absurd rfl h
  | cons a t =>
    simp only [normalize_slice, listMax, List.map_cons, List.headD_cons, List.foldl_cons]
    rw [max_sub_sub_right]
    exact foldl_max_map_sub t (max a a) m

theorem dbToLin_pos (x : ℚ) : 0 < dbToLin x :=
  Real.rpow_pos_of_pos (by norm_num) _

theorem dbToLin_le_one (x : ℚ) (hx : x ≤ 0) : dbToLin x ≤ 1 := by
  apply Real.rpow_le_one_of_one_le_of_nonpos (by norm_num)
  have hx' : (x : ℝ) ≤ 0 := by exact_mod_cast hx
  linarith

theorem dbToLin_eq_one_iff (x : ℚ) (hx : x ≤ 0) : dbToLin x = 1 ↔ x = 0 := by
  constructor
  · intro h
    by_contra hne
    have hxlt : x < 0 := lt_of_le_of_ne hx hne
    have hlt0 : (x : ℝ) / 10 < 0 := by
      have : (x : ℝ) < 0 := by exact_mod_cast hxlt
      linarith
    have hlt := Real.rpow_lt_one_of_one_lt_of_neg (show (1 : ℝ) < 10 by norm_num) hlt0
    rw [dbToLin] at h
    rw [h] at hlt
    exact absurd hlt (lt_irrefl 1)
  · intro h
    subst h
    simp [dbToLin]

theorem w1_nonneg (V H : ℚ) (hH : H ≤ 0) : 0 ≤ w1 V H :=
  mul_nonneg (dbToLin_pos V).le (by linarith [dbToLin_le_one H hH])

theorem w2_nonneg (V H : ℚ) (hV : V ≤ 0) : 0 ≤ w2 V H :=
  mul_nonneg (dbToLin_pos H).le (by linarith [dbToLin_le_one V hV])

theorem w1_eq_zero_iff (V H : ℚ) : w1 V H = 0 ↔ dbToLin H = 1 := by
  rw [w1, mul_eq_zero]
  constructor
  · rintro (h | h)
    · exact absurd h (dbToLin_pos V).ne'
    · exact (sub_eq_zero.mp h).symm
  · intro h
    exact Or.inr (by rw [h, sub_self])

theorem w2_eq_zero_iff (V H : ℚ) : w2 V H = 0 ↔ dbToLin V = 1 := by
  rw [w2, mul_eq_zero]
  constructor
  · rintro (h | h)
    · exact absurd h (dbToLin_pos H).ne'
    · exact (sub_eq_zero.mp h).symm
  · intro h
    exact Or.inr (by rw [h, sub_self])

theorem cbrt_nonneg (x : ℝ) (hx : 0 ≤ x) : 0 ≤ cbrt x := by
  rw [cbrt, if_pos hx]
  exact Real.rpow_nonneg hx _

theorem cbrt_pos (x : ℝ) (hx : 0 < x) : 0 < cbrt x := by
  rw [cbrt, if_pos hx.le]
  exact Real.rpow_pos_of_pos hx _

/-! ## Claim theorems -/

/-- C7: with `max_directivity = max(max vert_gain, max horiz_gain)`, the
normalization step makes the maximum over both normalized slices exactly 0,
and denormalizing (adding the scalar back) after normalizing (subtracting
it) reproduces every original gain value exactly in exact arithmetic. -/
theorem c7_normalization_roundtrip (vert horiz : List ℚ)
    (hv : vert ≠ []) (hh : horiz ≠ []) :
    max (listMax (normalize_slice vert (max_directivity vert horiz)))
        (listMax (normalize_slice horiz (max_directivity vert horiz))) = 0 ∧
    ∀ g ∈ vert ++ horiz,
      denormalize (g - max_directivity vert horiz) (max_directivity vert horiz) = g := by
  constructor
  · rw [listMax_normalize vert _ hv, listMax_normalize horiz _ hh, max_sub_sub_right]
    simp [max_directivity]
  · intro g _
    simp [denormalize]

/-- Witness for C7 at a concrete input. -/
theorem c7_witness :
    (([0, -6] : List ℚ) ≠ []) ∧ (([-3] : List ℚ) ≠ []) ∧
    (max (listMax (normalize_slice [0, -6] (max_directivity [0, -6] [-3])))
        (listMax (normalize_slice [-3] (max_directivity [0, -6] [-3]))) = 0 ∧
     ∀ g ∈ ([0, -6] ++ [-3] : List ℚ),
       denormalize (g - max_directivity [0, -6] [-3]) (max_directivity [0, -6] [-3]) = g) :=
  ⟨by simp, by simp, c7_normalization_roundtrip [0, -6] [-3] (by simp) (by simp)⟩

/-- C5: wherever both normalized cell values are `≤ 0`, the Cross-Weighted
combined cell value (pre-denormalization) is `≤ 0`. -/
theorem c5_crossweighted_bounded (V H : ℚ) (k : ℕ) (hV : V ≤ 0) (hH : H ≤ 0) :
    crossWeightedCell V H k ≤ 0 := by
  rw [crossWeightedCell]
  split_ifs with h
  · exact le_refl 0
  · have hw1 := w1_nonneg V H hH
    have hw2 := w2_nonneg V H hV
    have h1 : (H : ℝ) ≤ 0 := by exact_mod_cast hH
    have h2 : (V : ℝ) ≤ 0 := by exact_mod_cast hV
    have hm1 : (H : ℝ) * w1 V H ≤ 0 := mul_nonpos_iff.mpr (Or.inr ⟨h1, hw1⟩)
    have hm2 : (V : ℝ) * w2 V H ≤ 0 := mul_nonpos_iff.mpr (Or.inr ⟨h2, hw2⟩)
    have hden : 0 ≤ cbrt (w1 V H ^ k + w2 V H ^ k) :=
      cbrt_nonneg _ (add_nonneg (pow_nonneg hw1 k) (pow_nonneg hw2 k))
    exact div_nonpos_iff.mpr (Or.inr ⟨by linarith, hden⟩)

/-- Witness for C5 at a concrete input. -/
theorem c5_witness :
    ((-10 : ℚ) ≤ 0) ∧ ((-4 : ℚ) ≤ 0) ∧ crossWeightedCell (-10) (-4) 2 ≤ 0 :=
  ⟨by norm_num, by norm_num,
    c5_crossweighted_bounded (-10) (-4) 2 (by norm_num) (by norm_num)⟩

/-- C4: under the precondition that both normalized cell values are `≤ 0`,
the two cross weights vanish simultaneously exactly when both linear
values equal 1, i.e. exactly at `V = H = 0` (both slices at the
normalized peak); there the combiner output is forced to exactly 0, and
away from there the divisor `cbrt (w1 ^ k + w2 ^ k)` is nonzero, so the
division never divides by zero. -/
theorem c4_crossweighted_singularity (V H : ℚ) (k : ℕ) (hV : V ≤ 0) (hH : H ≤ 0) :
    ((w1 V H = 0 ∧ w2 V H = 0) ↔ (dbToLin V = 1 ∧ dbToLin H = 1)) ∧
    ((w1 V H = 0 ∧ w2 V H = 0) ↔ (V = 0 ∧ H = 0)) ∧
    ((w1 V H = 0 ∧ w2 V H = 0) → crossWeightedCell V H k = 0) ∧
    (¬(w1 V H = 0 ∧ w2 V H = 0) → cbrt (w1 V H ^ k + w2 V H ^ k) ≠ 0) := by
  have h1 := w1_eq_zero_iff V H
  have h2 := w2_eq_zero_iff V H
  refine ⟨?_, ?_, ?_, ?_⟩
  · rw [h1, h2]
    tauto
  · rw [h1, h2, dbToLin_eq_one_iff V hV, dbToLin_eq_one_iff H hH]
    tauto
  · intro h
    rw [crossWeightedCell, if_pos h]
  · intro h
    have hw1 := w1_nonneg V H hH
    have hw2 := w2_nonneg V H hV
    have hpos : 0 < w1 V H ^ k + w2 V H ^ k := by
      cases k with
      | zero => norm_num
      | succ n =>
        rcases not_and_or.mp h with h' | h'
        · have hp : 0 < w1 V H := lt_of_le_of_ne hw1 (Ne.symm h')
          exact add_pos_of_pos_of_nonneg (pow_pos hp _) (pow_nonneg hw2 _)
        · have hp : 0 < w2 V H := lt_of_le_of_ne hw2 (Ne.symm h')
          exact add_pos_of_nonneg_of_pos (pow_nonneg hw1 _) (pow_pos hp _)
    exact (cbrt_pos _ hpos).ne'

/-- Witness for C4 at a concrete input. -/
theorem c4_witness :
    ((0 : ℚ) ≤ 0) ∧
    (((w1 0 0 = 0 ∧ w2 0 0 = 0) ↔ (dbToLin 0 = 1 ∧ dbToLin 0 = 1)) ∧
     ((w1 0 0 = 0 ∧ w2 0 0 = 0) ↔ ((0 : ℚ) = 0 ∧ (0 : ℚ) = 0)) ∧
     ((w1 0 0 = 0 ∧ w2 0 0 = 0) → crossWeightedCell 0 0 2 = 0) ∧
     (¬(w1 0 0 = 0 ∧ w2 0 0 = 0) → cbrt (w1 0 0 ^ 2 + w2 0 0 ^ 2) ≠ 0)) :=
  ⟨le_refl 0, c4_crossweighted_singularity 0 0 2 (le_refl 0) (le_refl 0)⟩

theorem one_lt_dedup_length_iff (l : List ℚ) :
    1 < l.dedup.length ↔ ∃ a ∈ l, ∃ b ∈ l, a ≠ b := by
  constructor
  · intro h
    cases hd : l.dedup with
    | nil => rw [hd] at h; simp at h
    | cons x xs =>
      cases xs with
      | nil => rw [hd] at h; simp at h
      | cons y t =>
        have hx : x ∈ l := List.mem_dedup.mp (by rw [hd]; simp)
        have hy : y ∈ l := List.mem_dedup.mp (by rw [hd]; simp)
        have hnd := l.nodup_dedup
        rw [hd] at hnd
        refine ⟨x, hx, y, hy, fun he => ?_⟩
        subst he
        exact (List.nodup_cons.mp hnd).1 (by simp)
  · rintro ⟨a, ha, b, hb, hab⟩
    by_contra hle
    push_neg at hle
    have ha' : a ∈ l.dedup := List.mem_dedup.mpr ha
    have hb' : b ∈ l.dedup := List.mem_dedup.mpr hb
    cases hd : l.dedup with
    | nil => rw [hd] at ha'; simp at ha'
    | cons x xs =>
      cases xs with
      | nil =>
        rw [hd] at ha' hb'
        simp at ha' hb'
        exact hab (ha'.trans hb'.symm)
      | cons y t => rw [hd] at hle; simp at hle

theorem mem_groupGains {rounded : List ℤ} {vals : List ℚ} {u : ℤ} {a : ℚ} :
    a ∈ groupGains rounded vals u ↔
      ∃ i, ∃ h1 : i < rounded.length, ∃ h2 : i < vals.length,
        rounded[i] = u ∧ vals[i] = a := by
  simp only [groupGains, List.mem_map, List.mem_filter]
  constructor
  · rintro ⟨p, ⟨hp, hpu⟩, hpa⟩
    rcases List.mem_iff_getElem.mp hp with ⟨i, hi, he⟩
    have hi' := hi
    rw [List.length_zip] at hi'
    have h1 : i < rounded.length := lt_of_lt_of_le hi' (min_le_left _ _)
    have h2 : i < vals.length := lt_of_lt_of_le hi' (min_le_right _ _)
    rw [List.getElem_zip] at he
    refine ⟨i, h1, h2, ?_, ?_⟩
    · have : p.1 = u := by exact_mod_cast beq_iff_eq.mp hpu
      rw [← this, ← he]
    · rw [← hpa, ← he]
  · rintro ⟨i, h1, h2, hru, hva⟩
    have hz : i < (rounded.zip vals).length := by
      rw [List.length_zip]
      exact lt_min h1 h2
    refine ⟨(rounded.zip vals)[i], ⟨List.getElem_mem hz, ?_⟩, ?_⟩
    · rw [List.getElem_zip]
      exact beq_iff_eq.mpr hru
    · rw [List.getElem_zip]
      exact hva

theorem check_repeated_ok_of_all_eq (vals angles : List ℚ) (tag : String)
    (h : ∀ a ∈ vals, ∀ b ∈ vals, a = b) :
    check_repeated_points vals angles tag = Except.ok () := by
  rw [check_repeated_points, if_neg]
  intro hc
  rcases List.any_eq_true.mp hc with ⟨u, hu, hgu⟩
  rcases (one_lt_dedup_length_iff _).mp (of_decide_eq_true hgu) with ⟨a, ha, b, hb, hab⟩
  rcases mem_groupGains.mp ha with ⟨i, _, hi2, _, hia⟩
  rcases mem_groupGains.mp hb with ⟨j, _, hj2, _, hjb⟩
  exact hab (by
    rw [← hia, ← hjb]
    exact h _ (List.getElem_mem hi2) _ (List.getElem_mem hj2))

theorem check_repeated_ok_of_nodup (vals angles : List ℚ) (tag : String)
    (h : (angles.map roundHalfEven).Nodup) :
    check_repeated_points vals angles tag = Except.ok () := by
  rw [check_repeated_points, if_neg]
  intro hc
  rcases List.any_eq_true.mp hc with ⟨u, hu, hgu⟩
  rcases (one_lt_dedup_length_iff _).mp (of_decide_eq_true hgu) with ⟨a, ha, b, hb, hab⟩
  rcases mem_groupGains.mp ha with ⟨i, hi1, hi2, hiu, hia⟩
  rcases mem_groupGains.mp hb with ⟨j, hj1, hj2, hju, hjb⟩
  have hij : i = j := (h.getElem_inj_iff).mp (by rw [hiu, hju])
  subst hij
  exact hab (by rw [← hia, ← hjb])

/-- C8: the duplicate-angle check fails with the repeated-angle error if
and only if two samples of the slice share the same rounded angle but
carry different gain values. -/
theorem c8_duplicate_angle (vals angles : List ℚ) (tag : String)
    (hlen : vals.length = angles.length) :
    check_repeated_points vals angles tag =
        Except.error ("Repeated angles with unequal values in " ++ tag) ↔
      ∃ i j, i < angles.length ∧ j < angles.length ∧
        roundHalfEven (angles.getD i 0) = roundHalfEven (angles.getD j 0) ∧
        vals.getD i 0 ≠ vals.getD j 0 := by
  rw [check_repeated_points]
  split_ifs with hc
  · refine iff_of_true rfl ?_
    rcases List.any_eq_true.mp hc with ⟨u, hu, hgu⟩
    rcases (one_lt_dedup_length_iff _).mp (of_decide_eq_true hgu) with ⟨a, ha, b, hb, hab⟩
    rcases mem_groupGains.mp ha with ⟨i, hi1, hi2, hiu, hia⟩
    rcases mem_groupGains.mp hb with ⟨j, hj1, hj2, hju, hjb⟩
    rw [List.length_map] at hi1 hj1
    rw [List.getElem_map] at hiu hju
    refine ⟨i, j, hi1, hj1, ?_, ?_⟩
    · rw [List.getD_eq_getElem _ _ hi1, List.getD_eq_getElem _ _ hj1, hiu, hju]
    · rw [List.getD_eq_getElem _ _ hi2, List.getD_eq_getElem _ _ hj2, hia, hjb]
      exact hab
  · refine iff_of_false (by simp) ?_
    rintro ⟨i, j, hi, hj, hr, hv⟩
    apply hc
    apply List.any_eq_true.mpr
    have hi2 : i < vals.length := by omega
    have hj2 : j < vals.length := by omega
    have hi1 : i < (angles.map roundHalfEven).length := by
      rw [List.length_map]; exact hi
    have hj1 : j < (angles.map roundHalfEven).length := by
      rw [List.length_map]; exact hj
    refine ⟨roundHalfEven (angles.getD i 0), ?_, ?_⟩
    · apply List.mem_dedup.mpr
      rw [List.getD_eq_getElem _ _ hi, ← List.getElem_map (f := roundHalfEven) (h := hi1)]
      exact List.getElem_mem hi1
    · apply decide_eq_true
      apply (one_lt_dedup_length_iff _).mpr
      refine ⟨vals.getD i 0, ?_, vals.getD j 0, ?_, hv⟩
      · apply mem_groupGains.mpr
        refine ⟨i, hi1, hi2, ?_, (List.getD_eq_getElem _ _ hi2).symm⟩
        rw [List.getElem_map, List.getD_eq_getElem _ _ hi]
      · apply mem_groupGains.mpr
        refine ⟨j, hj1, hj2, ?_, (List.getD_eq_getElem _ _ hj2).symm⟩
        rw [List.getElem_map, ← List.getD_eq_getElem angles 0 hj]
        exact hr.symm

/-- Witness for C8: samples at 10.0° and 10.4° (both rounding to 10°)
with differing gains trigger the error; with identical gains they pass. -/
theorem c8_witness :
    (([0, 1] : List ℚ).length = ([10, 52/5] : List ℚ).length) ∧
    check_repeated_points [0, 1] [10, 52/5] "el" =
      Except.error ("Repeated angles with unequal values in " ++ "el") ∧
    check_repeated_points [1, 1] [10, 52/5] "el" = Except.ok () := by
  refine ⟨rfl, ?_, ?_⟩
  · apply (c8_duplicate_angle [0, 1] [10, 52/5] "el" rfl).mpr
    refine ⟨0, 1, by norm_num, by norm_num, ?_, by norm_num⟩
    norm_num [roundHalfEven]
  · by_contra hne
    have h1 : check_repeated_points [1, 1] [10, 52/5] "el" =
        Except.error ("Repeated angles with unequal values in " ++ "el") := by
      rw [check_repeated_points] at hne ⊢
      split_ifs at hne ⊢ with h
      · rfl
      · exact absurd rfl hne
    have h2 := (c8_duplicate_angle [1, 1] [10, 52/5] "el" rfl).mp h1
    rcases h2 with ⟨i, j, hi, hj, _, hv⟩
    have hi' : i < 2 := by simpa using hi
    have hj' : j < 2 := by simpa using hj
    interval_cases i <;> interval_cases j <;> simp_all

/-- C9: once the boresight-coverage and gain-vs-boresight checks pass,
the cross-slice agreement check errors exactly when the boresight gain
difference exceeds the error threshold, warns (returning with the
warning flag set, letting the computation proceed) exactly when it
exceeds the warn threshold but not the error threshold, and does
neither exactly when it is within the warn threshold. -/
theorem c9_slice_intersection (vert theta horiz phi : List ℚ) (tn tg t1 t2 : ℚ)
    (hth : theta ≠ []) (hph : phi ≠ []) (ht : t1 ≤ t2)
    (h1 : minFromBoresight theta 90 ≤ tn)
    (h2 : minFromBoresight phi 0 ≤ tn)
    (h3 : listMax vert - boresightGain vert theta 90 ≤ tg)
    (h4 : listMax horiz - boresightGain horiz phi 0 ≤ tg) :
    (check_reconstruction_requirements vert theta horiz phi tn tg (t1, t2) =
        Except.error "Gain difference at slice intersection exceeds tolerance." ↔
      t2 < |boresightGain vert theta 90 - boresightGain horiz phi 0|) ∧
    (check_reconstruction_requirements vert theta horiz phi tn tg (t1, t2) =
        Except.ok true ↔
      (t1 < |boresightGain vert theta 90 - boresightGain horiz phi 0| ∧
       |boresightGain vert theta 90 - boresightGain horiz phi 0| ≤ t2)) ∧
    (check_reconstruction_requirements vert theta horiz phi tn tg (t1, t2) =
        Except.ok false ↔
      |boresightGain vert theta 90 - boresightGain horiz phi 0| ≤ t1) := by
  have hth' : theta.isEmpty = false := by simp [hth]
  have hph' : phi.isEmpty = false := by simp [hph]
  rw [check_reconstruction_requirements, hth', hph']
  simp only [Bool.false_eq_true, if_false]
  rw [if_neg (not_lt.mpr h1), if_neg (not_lt.mpr h2), if_neg (not_lt.mpr h3),
    if_neg (not_lt.mpr h4)]
  refine ⟨?_, ?_, ?_⟩
  · split_ifs with ha hb
    · exact iff_of_true rfl ha
    · exact iff_of_false (by simp) ha
    · exact iff_of_false (by simp) ha
  · split_ifs with ha hb
    · exact iff_of_false (by simp) (fun h => absurd ha (not_lt.mpr h.2))
    · exact iff_of_true rfl ⟨hb, not_lt.mp ha⟩
    · exact iff_of_false (by simp) (fun h => hb h.1)
  · split_ifs with ha hb
    · exact iff_of_false (by simp) (fun hle => absurd ha (not_lt.mpr (hle.trans ht)))
    · exact iff_of_false (by simp) (fun hle => absurd hb (not_lt.mpr hle))
    · exact iff_of_true rfl (not_lt.mp hb)

/-- Witness for C9: a boresight gain difference of 2 with thresholds
(1, 3) warns and continues. -/
theorem c9_witness :
    (([90] : List ℚ) ≠ []) ∧ (([0] : List ℚ) ≠ []) ∧ ((1 : ℚ) ≤ 3) ∧
    minFromBoresight [90] 90 ≤ 10 ∧ minFromBoresight [0] 0 ≤ 10 ∧
    listMax [0] - boresightGain [0] [90] 90 ≤ 3 ∧
    listMax [-2] - boresightGain [-2] [0] 0 ≤ 3 ∧
    check_reconstruction_requirements [0] [90] [-2] [0] 10 3 (1, 3) =
      Except.ok true := by
  have e1 : minFromBoresight [90] 90 = 0 := by
    norm_num [minFromBoresight, listMin, qmod]
  have e2 : minFromBoresight [0] 0 = 0 := by
    norm_num [minFromBoresight, listMin, qmod]
  have e3 : boresightGain [0] [90] 90 = 0 := by
    norm_num [boresightGain, argminList, argminAux]
  have e4 : boresightGain [-2] [0] 0 = -2 := by
    norm_num [boresightGain, argminList, argminAux]
  have e5 : listMax [0] = (0 : ℚ) := by norm_num [listMax]
  have e6 : listMax [-2] = (-2 : ℚ) := by norm_num [listMax]
  refine ⟨by simp, by simp, by norm_num, by rw [e1]; norm_num, by rw [e2]; norm_num,
    by rw [e5, e3]; norm_num, by rw [e6, e4]; norm_num, ?_⟩
  apply (c9_slice_intersection [0] [90] [-2] [0] 10 3 1 3 (by simp) (by simp)
    (by norm_num) (by rw [e1]; norm_num) (by rw [e2]; norm_num)
    (by rw [e5, e3]; norm_num) (by rw [e6, e4]; norm_num)).2.1.mpr
  rw [e3, e4]
  norm_num

/-- C2 counterexample: a vertical slice whose only sample is at 80° —
exactly 10.0° from the 90° boresight in true angular distance — fails
the coverage check with tolerance 10, because the code measures
`abs (mod (θ - 90) 360)` = 350, not the symmetric distance; the claim
says such a slice passes. -/
theorem c2_counterexample :
    |(80 : ℚ) - 90| = 10 ∧
    check_reconstruction_requirements [0] [80] [0] [0] 10 3 (1, 3) =
      Except.error "No angles near boresight in vertical slice" := by
  have hm : minFromBoresight [80] 90 = 350 := by
    norm_num [minFromBoresight, listMin, qmod]
  constructor
  · norm_num
  · rw [check_reconstruction_requirements]
    simp only [List.isEmpty_cons, Bool.false_eq_true, if_false]
    rw [if_pos (by rw [hm]; norm_num)]

/-- C2 amended: the boresight-coverage check computes, for each slice,
the minimum of `abs (mod (angle - boresight) 360)` — the one-sided
offset above the boresight, since `np.mod` is nonnegative — and fails
with the no-boresight error for that slice exactly when this minimum
exceeds the tolerance (the horizontal check runs once the vertical one
passes).  A sample 10.0° above boresight passes at tolerance 10; a
sample 10.0° below (offset 350) fails, as does 10.0001° above. -/
theorem c2_boresight_coverage (vert theta horiz phi : List ℚ) (tn tg : ℚ) (ti : ℚ × ℚ)
    (hth : theta ≠ []) (hph : phi ≠ []) :
    (check_reconstruction_requirements vert theta horiz phi tn tg ti =
        Except.error "No angles near boresight in vertical slice" ↔
      tn < minFromBoresight theta 90) ∧
    (minFromBoresight theta 90 ≤ tn →
      (check_reconstruction_requirements vert theta horiz phi tn tg ti =
          Except.error "No angles near boresight in horizontal slice" ↔
        tn < minFromBoresight phi 0)) := by
  have hth' : theta.isEmpty = false := by simp [hth]
  have hph' : phi.isEmpty = false := by simp [hph]
  rw [check_reconstruction_requirements, hth', hph']
  simp only [Bool.false_eq_true, if_false]
  constructor
  · by_cases ha : tn < minFromBoresight theta 90
    · rw [if_pos ha]
      exact iff_of_true rfl ha
    · rw [if_neg ha]
      refine iff_of_false ?_ ha
      split_ifs <;> simp
  · intro hle
    rw [if_neg (not_lt.mpr hle)]
    by_cases hb : tn < minFromBoresight phi 0
    · rw [if_pos hb]
      exact iff_of_true rfl hb
    · rw [if_neg hb]
      refine iff_of_false ?_ hb
      split_ifs <;> simp

/-- Witness for C2's amended theorem: a sample at 100° (offset 10.0)
with tolerance 10. -/
theorem c2_witness :
    (([100] : List ℚ) ≠ []) ∧ (([0] : List ℚ) ≠ []) ∧
    ((check_reconstruction_requirements [0] [100] [0] [0] 10 3 (1, 3) =
        Except.error "No angles near boresight in vertical slice" ↔
      (10 : ℚ) < minFromBoresight [100] 90) ∧
     (minFromBoresight [100] 90 ≤ 10 →
       (check_reconstruction_requirements [0] [100] [0] [0] 10 3 (1, 3) =
           Except.error "No angles near boresight in horizontal slice" ↔
         (10 : ℚ) < minFromBoresight [0] 0))) :=
  ⟨by simp, by simp,
    c2_boresight_coverage [0] [100] [0] [0] 10 3 (1, 3) (by simp) (by simp)⟩

theorem keptPairs_map_fst :
    ∀ theta vn : List ℚ, theta.length ≤ vn.length →
      (keptPairs vn theta).map Prod.fst =
        theta.filter (fun t => decide (qmod t 360 ≤ 180))
  | [], _, _ => by simp [keptPairs]
  | t :: ts, [], h => by simp at h
  | t :: ts, v :: vs, h => by
    have h' : ts.length ≤ vs.length := by simpa using h
    have ih := keptPairs_map_fst ts vs h'
    rw [keptPairs] at ih ⊢
    by_cases hc : qmod t 360 ≤ 180 <;>
      simp [List.filter_cons, hc, ih]

/-- C1 counterexample: with 2 θ samples kept and 3 φ samples, the
returned grids have 3 rows (one per φ) of length 2 — shape `|φ| ×
|θ_subset|` — not the claimed `|θ_subset| × |φ|` with θ on the first
axis; the vertical grid's rows are copies of the θ-subset gain vector. -/
theorem c1_counterexample :
    ∃ vm tout hmesh pout,
      preprocess_data [1, 2] [0, 90] [5, 6, 7] [0, 10, 20] "Summing" =
        Except.ok (vm, tout, hmesh, pout) ∧
      tout.length = 2 ∧ pout.length = 3 ∧ vm.length = 3 ∧ hmesh.length = 3 ∧
      vm.head?.map List.length = some 2 := by
  refine ⟨[[1, 2], [1, 2], [1, 2]], [0, 90], [[5, 5], [6, 6], [7, 7]], [0, 10, 20],
    ?_, rfl, rfl, rfl, rfl, rfl⟩
  norm_num [preprocess_data, keptPairs, qmod]

/-- C1 amended: the two preprocessed grids have identical shape `|φ| ×
|θ_subset|`: they have one row per φ sample (per horizontal gain) whose
length is the θ-subset size; the vertical grid broadcasts the θ-subset
gain values across all φ rows (every row is the θ-subset gain vector),
and the horizontal grid broadcasts the φ gain values across all
θ-subset columns (row `i` is constant at the `i`-th horizontal gain). -/
theorem c1_grid_shape (vn theta hn phi : List ℚ) (m : String)
    (hm : m = "Summing" ∨ m = "CrossWeighted") :
    ∃ vm tout hmesh pout,
      preprocess_data vn theta hn phi m = Except.ok (vm, tout, hmesh, pout) ∧
      vm.length = hn.length ∧ hmesh.length = hn.length ∧
      (∀ row ∈ vm, row = (keptPairs vn theta).map Prod.snd) ∧
      (∀ row ∈ hmesh, row.length = (keptPairs vn theta).length) ∧
      (∀ i j, i < hn.length → j < (keptPairs vn theta).length →
        (hmesh.getD i []).getD j 0 = hn.getD i 0) := by
  simp only [preprocess_data, if_pos hm]
  refine ⟨_, _, _, _, rfl, by simp, by simp, ?_, ?_, ?_⟩
  · intro row hrow
    rcases List.mem_map.mp hrow with ⟨x, _, he⟩
    exact he.symm
  · intro row hrow
    rcases List.mem_map.mp hrow with ⟨x, _, he⟩
    rw [← he]
    simp
  · intro i j hi hj
    have hi' : i < (hn.map
        (fun hv => ((keptPairs vn theta).map Prod.snd).map (fun _ => hv))).length := by
      simpa using hi
    rw [List.getD_eq_getElem _ _ hi', List.getElem_map]
    have hj' : j < (((keptPairs vn theta).map Prod.snd).map
        (fun _ => hn[i])).length := by
      simpa using hj
    rw [List.getD_eq_getElem _ _ hj', List.getElem_map, List.getD_eq_getElem _ _ hi]

/-- Witness for C1's amended theorem. -/
theorem c1_witness :
    (("Summing" : String) = "Summing" ∨ ("Summing" : String) = "CrossWeighted") ∧
    (∃ vm tout hmesh pout,
      preprocess_data [1, 2] [0, 90] [5, 6, 7] [0, 10, 20] "Summing" =
        Except.ok (vm, tout, hmesh, pout) ∧
      vm.length = ([5, 6, 7] : List ℚ).length ∧
      hmesh.length = ([5, 6, 7] : List ℚ).length ∧
      (∀ row ∈ vm, row = (keptPairs [1, 2] [0, 90]).map Prod.snd) ∧
      (∀ row ∈ hmesh, row.length = (keptPairs [1, 2] [0, 90]).length) ∧
      (∀ i j, i < ([5, 6, 7] : List ℚ).length →
        j < (keptPairs [1, 2] [0, 90]).length →
        (hmesh.getD i []).getD j 0 = ([5, 6, 7] : List ℚ).getD i 0)) :=
  ⟨Or.inl rfl, c1_grid_shape [1, 2] [0, 90] [5, 6, 7] [0, 10, 20] "Summing" (Or.inl rfl)⟩

/-- C3 counterexample: on a valid input containing θ = 365° and
φ = 365° (both pass every check: 365 wraps to 5), the returned
`theta_out` is `[90, 365]` — the raw θ values, with 365 ∉ [0, 180] —
and `phi_out` is `[0, 365]`, unwrapped, with 365 ∉ [0, 360). -/
theorem c3_counterexample :
    pattern_from_slices [0, 0] [90, 365] (HorizSpec.series [0, 0]) (some [0, 365])
        "Summing" 2 10 3 (1, 3) =
      Except.ok ([[(0 : ℝ), 0], [0, 0]], [90, 365], [0, 365], false) ∧
    ¬((365 : ℚ) ≤ 180) ∧ ¬((365 : ℚ) < 360) := by
  have hrep1 : check_repeated_points [0, 0] [90, 365] "el" = Except.ok () := by
    apply check_repeated_ok_of_all_eq
    intro a ha b hb
    simp at ha hb
    rw [ha, hb]
  have hrep2 : check_repeated_points [0, 0] [0, 365] "az" = Except.ok () := by
    apply check_repeated_ok_of_all_eq
    intro a ha b hb
    simp at ha hb
    rw [ha, hb]
  have hreq : check_reconstruction_requirements [0, 0] [90, 365] [0, 0] [0, 365]
      10 3 (1, 3) = Except.ok false := by
    norm_num [check_reconstruction_requirements, minFromBoresight, listMin, listMax,
      boresightGain, argminList, argminAux, qmod]
  refine ⟨?_, by norm_num, by norm_num⟩
  rw [pattern_from_slices]
  norm_num [hrep1, hrep2, hreq, max_directivity, listMax, normalize_slice,
    preprocess_data, keptPairs, qmod, denormalize, Except.bind]

/-- C3 amended: `theta_out` is the sublist of the ORIGINAL θ values whose
wrap `mod 360` is ≤ 180 (each selected raw value satisfies
`qmod θ 360 ≤ 180`, but the value returned is the raw one, which need
not lie in [0, 180]); `phi_out` is the full input φ series unchanged,
not wrapped into [0, 360). -/
theorem c3_angle_series (vn theta hn phi : List ℚ) (m : String)
    (hm : m = "Summing" ∨ m = "CrossWeighted") (hlen : theta.length ≤ vn.length) :
    ∃ vm tout hmesh pout,
      preprocess_data vn theta hn phi m = Except.ok (vm, tout, hmesh, pout) ∧
      tout = theta.filter (fun t => decide (qmod t 360 ≤ 180)) ∧
      (∀ t ∈ tout, qmod t 360 ≤ 180) ∧
      pout = phi := by
  simp only [preprocess_data, if_pos hm]
  have hmem := keptPairs_map_fst theta vn hlen
  rw [keptPairs] at hmem
  refine ⟨_, _, _, _, rfl, ?_, ?_, rfl⟩
  · exact hmem
  · intro t ht
    rw [keptPairs_map_fst theta vn hlen] at ht
    exact of_decide_eq_true (List.mem_filter.mp ht).2

/-- Witness for C3's amended theorem. -/
theorem c3_witness :
    (("Summing" : String) = "Summing" ∨ ("Summing" : String) = "CrossWeighted") ∧
    ([90, 365] : List ℚ).length ≤ ([0, 0] : List ℚ).length ∧
    (∃ vm tout hmesh pout,
      preprocess_data [0, 0] [90, 365] [0, 0] [0, 365] "Summing" =
        Except.ok (vm, tout, hmesh, pout) ∧
      tout = ([90, 365] : List ℚ).filter (fun t => decide (qmod t 360 ≤ 180)) ∧
      (∀ t ∈ tout, qmod t 360 ≤ 180) ∧
      pout = [0, 365]) :=
  ⟨Or.inl rfl, by norm_num,
    c3_angle_series [0, 0] [90, 365] [0, 0] [0, 365] "Summing" (Or.inl rfl) (by norm_num)⟩

/-- C6: the end-to-end Summing scenario of the spec.  The call succeeds
with no warning, `max_directivity = 0`, `theta_out = [0,45,90,135,180]`,
`phi_out = [0,90,180,270]`, the grid is the outer sum of the two slices
(row `i` is the vertical slice shifted by the `i`-th horizontal gain),
and the cell for (θ = 90°, φ = 0°) — column 2 of row 0 — is exactly
0 dBi. -/
theorem c6_end_to_end :
    max_directivity [-20, -6, 0, -6, -20] [0, -10, -20, -10] = 0 ∧
    pattern_from_slices [-20, -6, 0, -6, -20] [0, 45, 90, 135, 180]
        (HorizSpec.series [0, -10, -20, -10]) (some [0, 90, 180, 270])
        "Summing" 2 10 3 (1, 3) =
      Except.ok ([[(-20 : ℝ), -6, 0, -6, -20], [-30, -16, -10, -16, -30],
          [-40, -26, -20, -26, -40], [-30, -16, -10, -16, -30]],
        [0, 45, 90, 135, 180], [0, 90, 180, 270], false) ∧
    (([[(-20 : ℝ), -6, 0, -6, -20], [-30, -16, -10, -16, -30],
        [-40, -26, -20, -26, -40], [-30, -16, -10, -16, -30]].getD 0 []).getD 2 0 = 0) := by
  have hmax : max_directivity [-20, -6, 0, -6, -20] [0, -10, -20, -10] = 0 := by
    norm_num [max_directivity, listMax]
  have hmap1 : ([0, 45, 90, 135, 180] : List ℚ).map roundHalfEven =
      ([0, 45, 90, 135, 180] : List ℤ) := by
    norm_num [roundHalfEven]
  have hmap2 : ([0, 90, 180, 270] : List ℚ).map roundHalfEven =
      ([0, 90, 180, 270] : List ℤ) := by
    norm_num [roundHalfEven]
  have hrep1 : check_repeated_points [-20, -6, 0, -6, -20] [0, 45, 90, 135, 180] "el" =
      Except.ok () := by
    apply check_repeated_ok_of_nodup
    rw [hmap1]
    decide
  have hrep2 : check_repeated_points [0, -10, -20, -10] [0, 90, 180, 270] "az" =
      Except.ok () := by
    apply check_repeated_ok_of_nodup
    rw [hmap2]
    decide
  have hreq : check_reconstruction_requirements [-20, -6, 0, -6, -20] [0, 45, 90, 135, 180]
      [0, -10, -20, -10] [0, 90, 180, 270] 10 3 (1, 3) = Except.ok false := by
    norm_num [check_reconstruction_requirements, minFromBoresight, listMin, listMax,
      boresightGain, argminList, argminAux, qmod]
  refine ⟨hmax, ?_, by norm_num⟩
  rw [pattern_from_slices]
  norm_num [hrep1, hrep2, hreq, max_directivity, listMax, normalize_slice,
    preprocess_data, keptPairs, qmod, denormalize]

theorem msiLoop_no_gain_before :
    ∀ (pre : List String) (sec : String) (post : List String) (st : MsiState),
      st.gainValue = none → st.transData = none →
      (∀ l ∈ pre, firstWordOf l ≠ "gain".data) →
      (firstWordOf sec = "horizontal".data ∨ firstWordOf sec = "vertical".data) →
      ∃ e, msiLoop (pre ++ sec :: post) st = Except.error e := by
  intro pre sec post
  induction pre with
  | nil =>
    intro st hg ht _ hsec
    simp only [List.nil_append, msiLoop]
    have hemp : ¬((trimL sec.data).isEmpty = true) := by
      intro he
      have hfw : firstWordOf sec = [] := by
        rw [firstWordOf]
        have he2 : trimL sec.data = [] := by simpa using he
        rw [he2]
        rfl
      rcases hsec with e | e <;> rw [hfw] at e <;> exact absurd e (by decide)
    rw [if_neg hemp]
    rw [if_neg (show ¬(firstWordOf sec = "name".data ∨
        firstWordOf sec = "make".data) by
      rintro (e | e) <;> rcases hsec with e2 | e2 <;> rw [e2] at e <;>
        exact absurd e (by decide))]
    rw [if_neg (show ¬(firstWordOf sec = "h_width".data ∨
        firstWordOf sec = "v_width".data ∨
        firstWordOf sec = "front_to_back".data ∨
        firstWordOf sec = "frequency".data) by
      rintro (e | e | e | e) <;> rcases hsec with e2 | e2 <;> rw [e2] at e <;>
        exact absurd e (by decide))]
    rw [if_neg (show ¬(firstWordOf sec = "tilt".data) by
      intro e
      rcases hsec with e2 | e2 <;> rw [e2] at e <;> exact absurd e (by decide))]
    rw [if_neg (show ¬(firstWordOf sec = "gain".data) by
      intro e
      rcases hsec with e2 | e2 <;> rw [e2] at e <;> exact absurd e (by decide))]
    rw [if_neg (show ¬(firstWordOf sec = "polarization".data) by
      intro e
      rcases hsec with e2 | e2 <;> rw [e2] at e <;> exact absurd e (by decide))]
    rw [if_neg (show ¬(firstWordOf sec = "comment".data) by
      intro e
      rcases hsec with e2 | e2 <;> rw [e2] at e <;> exact absurd e (by decide))]
    rw [if_pos hsec]
    rcases hxy : get_xy_coords post with ⟨data, msg, consumed⟩
    rw [hg, ht]
    exact ⟨_, rfl⟩
  | cons line pre2 ih =>
    intro st hg ht hng hsec
    have hngTail : ∀ l ∈ pre2, firstWordOf l ≠ "gain".data :=
      fun l hl => hng l (List.mem_cons_of_mem _ hl)
    simp only [List.cons_append, msiLoop]
    by_cases hemp : (trimL line.data).isEmpty = true
    · rw [if_pos hemp]
      exact ih st hg ht hngTail hsec
    · rw [if_neg hemp]
      by_cases h1 : firstWordOf line = "name".data ∨ firstWordOf line = "make".data
      · rw [if_pos h1]
        exact ih _ hg ht hngTail hsec
      · rw [if_neg h1]
        by_cases h2 : firstWordOf line = "h_width".data ∨
            firstWordOf line = "v_width".data ∨
            firstWordOf line = "front_to_back".data ∨
            firstWordOf line = "frequency".data
        · rw [if_pos h2]
          by_cases h2f : firstWordOf line = "frequency".data
          · rw [if_pos h2f]
            cases hv : parseFloat (restOfLine line) with
            | none => exact ⟨_, rfl⟩
            | some q => exact ih _ hg ht hngTail hsec
          · rw [if_neg h2f]
            exact ih _ hg ht hngTail hsec
        · rw [if_neg h2]
          by_cases h3 : firstWordOf line = "tilt".data
          · rw [if_pos h3]
            exact ih _ hg ht hngTail hsec
          · rw [if_neg h3]
            by_cases h4 : firstWordOf line = "gain".data
            · exact absurd h4 (hng line (List.mem_cons_self _ _))
            · rw [if_neg h4]
              by_cases h5 : firstWordOf line = "polarization".data
              · rw [if_pos h5]
                exact ih _ hg ht hngTail hsec
              · rw [if_neg h5]
                by_cases h6 : firstWordOf line = "comment".data
                · rw [if_pos h6]
                  exact ih _ hg ht hngTail hsec
                · rw [if_neg h6]
                  by_cases h7 : firstWordOf line = "horizontal".data ∨
                      firstWordOf line = "vertical".data
                  · rw [if_pos h7]
                    rcases hxy : get_xy_coords (pre2 ++ sec :: post) with
                      ⟨data, msg, consumed⟩
                    rw [hg, ht]
                    exact ⟨_, rfl⟩
                  · rw [if_neg h7]
                    exact ih _ hg ht hngTail hsec

/-- C10: a file containing a `horizontal` or `vertical` section line with
no `gain` line appearing earlier in the file — the lines after the
section, including any later `gain` lines, are unconstrained — makes
`msiread` raise an error: the magnitude list is only computed when a
gain value was previously read (`TransData` is unbound at the
`Magnitude` assignment otherwise), so magnitudes are never returned for
that section. -/
theorem c10_missing_gain (pre : List String) (sec : String) (post : List String)
    (hng : ∀ l ∈ pre, firstWordOf l ≠ "gain".data)
    (hsec : firstWordOf sec = "horizontal".data ∨
      firstWordOf sec = "vertical".data) :
    ∃ e, msiread (pre ++ sec :: post) = Except.error e := by
  rcases msiLoop_no_gain_before pre sec post initMsiState rfl rfl hng hsec with ⟨e, he⟩
  exact ⟨e, by rw [msiread, he]⟩

/-- Witness for C10 at a concrete file whose `gain` line comes only
AFTER the vertical section: it still errors. -/
theorem c10_witness :
    (∀ l ∈ ["NAME test"], firstWordOf l ≠ "gain".data) ∧
    (firstWordOf "VERTICAL 2" = "horizontal".data ∨
      firstWordOf "VERTICAL 2" = "vertical".data) ∧
    ∃ e, msiread (["NAME test"] ++ "VERTICAL 2" :: ["0 1.5", "GAIN 10 dBi"]) =
      Except.error e :=
  ⟨by decide, by decide,
    c10_missing_gain ["NAME test"] "VERTICAL 2" ["0 1.5", "GAIN 10 dBi"]
      (by decide) (by decide)⟩

end MsiConvert
